import Mathlib

/-!
Verification of the truncated-normal censored-regression core in
src/torch_TLR.py (repository pytorch_truncreg).

Tensors are modelled elementwise: each tensor element is a value of type
`EF`, an IEEE-style extended value (a finite real, plus infinity, minus
infinity, or NaN) computed with exact real arithmetic.  The two external
normal-CDF collaborators used by the code — `torch.distributions`
`Normal(0,1).cdf` and `gpytorch.log_normal_cdf` — are modelled through an
abstract interface `GaussCDF` that records the contract any standard
normal CDF implementation satisfies (strictly increasing, values strictly
between 0 and 1), with the ideal values at infinite arguments.
-/

set_option maxHeartbeats 1000000

/-- An elementwise tensor value: a finite real, +inf, -inf, or NaN. -/
inductive EF where
  | fin (r : ℝ)
  | pinf
  | ninf
  | nan

namespace EF

/-- IEEE negation. -/
def neg : EF → EF
  | fin r => fin (-r)
  | pinf => ninf
  | ninf => pinf
  | nan => nan

/-- IEEE addition with exact real arithmetic on finite values;
inf + (-inf) is NaN and NaN propagates. -/
def add : EF → EF → EF
  | nan, _ => nan
  | _, nan => nan
  | fin a, fin b => fin (a + b)
  | fin _, pinf => pinf
  | fin _, ninf => ninf
  | pinf, fin _ => pinf
  | ninf, fin _ => ninf
  | pinf, pinf => pinf
  | ninf, ninf => ninf
  | pinf, ninf => nan
  | ninf, pinf => nan

/-- IEEE subtraction, x + (-y). -/
def sub (x y : EF) : EF := add x (neg y)

/-- IEEE `<=`: any comparison involving NaN is false. -/
noncomputable def fle : EF → EF → Bool
  | nan, _ => false
  | _, nan => false
  | ninf, _ => true
  | _, pinf => true
  | pinf, _ => false
  | fin _, ninf => false
  | fin a, fin b => decide (a ≤ b)

/-- IEEE `<`: any comparison involving NaN is false. -/
noncomputable def flt : EF → EF → Bool
  | nan, _ => false
  | _, nan => false
  | ninf, ninf => false
  | ninf, _ => true
  | pinf, _ => false
  | fin _, pinf => true
  | fin _, ninf => false
  | fin a, fin b => decide (a < b)

/-- torch.isnan, elementwise. -/
def isNan : EF → Bool
  | nan => true
  | _ => false

/-- torch.max (elementwise maximum); NaN propagates. -/
def max : EF → EF → EF
  | nan, _ => nan
  | _, nan => nan
  | pinf, _ => pinf
  | _, pinf => pinf
  | ninf, x => x
  | x, ninf => x
  | fin a, fin b => fin (Max.max a b)

/-- torch.abs, elementwise. -/
def abs : EF → EF
  | fin r => fin |r|
  | pinf => pinf
  | ninf => pinf
  | nan => nan

/-- torch.exp, elementwise: exp(-inf) = 0, exp(+inf) = +inf. -/
noncomputable def exp : EF → EF
  | fin r => fin (Real.exp r)
  | pinf => pinf
  | ninf => fin 0
  | nan => nan

/-- torch.log, elementwise: log of a negative value is NaN, log 0 = -inf. -/
noncomputable def log : EF → EF
  | fin r => if 0 < r then fin (Real.log r) else if r = 0 then ninf else nan
  | pinf => pinf
  | ninf => nan
  | nan => nan

/-- torch.log1p, elementwise: log1p(x) = log(1 + x), NaN for 1 + x < 0. -/
noncomputable def log1p : EF → EF
  | fin r => if 0 < 1 + r then fin (Real.log (1 + r)) else if 1 + r = 0 then ninf else nan
  | pinf => pinf
  | ninf => nan
  | nan => nan

/-- IEEE division (finite denominator 0 treated as +0, as torch does). -/
noncomputable def div : EF → EF → EF
  | nan, _ => nan
  | _, nan => nan
  | fin a, fin b => if b ≠ 0 then fin (a / b) else if a = 0 then nan else if 0 < a then pinf else ninf
  | pinf, fin b => if 0 ≤ b then pinf else ninf
  | ninf, fin b => if 0 ≤ b then ninf else pinf
  | fin _, pinf => fin 0
  | fin _, ninf => fin 0
  | pinf, pinf => nan
  | pinf, ninf => nan
  | ninf, pinf => nan
  | ninf, ninf => nan

end EF

/-- Contract of the external standard normal CDF collaborators (spec §6):
a strictly increasing function with values strictly in (0, 1). -/
structure GaussCDF where
  Phi : ℝ → ℝ
  strictMono : StrictMono Phi
  pos : ∀ x, 0 < Phi x
  lt_one : ∀ x, Phi x < 1

/-- Model of `self.snd.cdf` (Normal(0,1).cdf) on extended inputs:
cdf(+inf) = 1 and cdf(-inf) = 0. -/
noncomputable def cdf (G : GaussCDF) : EF → EF
  | EF.fin x => EF.fin (G.Phi x)
  | EF.pinf => EF.fin 1
  | EF.ninf => EF.fin 0
  | EF.nan => EF.nan

/-- Model of `gpytorch.log_normal_cdf`: the numerically stable log of the
standard normal CDF; log Phi(+inf) = 0 and log Phi(-inf) = -inf. -/
noncomputable def logncdf (G : GaussCDF) : EF → EF
  | EF.fin x => EF.fin (Real.log (G.Phi x))
  | EF.pinf => EF.fin 0
  | EF.ninf => EF.ninf
  | EF.nan => EF.nan

/-- `ids1` of src/torch_TLR.py line 18: the direct-regime eligibility mask
`(a <= 30) & (b >= -30)`, elementwise. -/
noncomputable def ids1 (a b : EF) : Bool :=
  EF.fle a (EF.fin 30) && EF.fle (EF.fin (-30)) b

/-- Lines 17-23 of src/torch_TLR.py, elementwise: the direct-regime
probability after clamping.  `res` starts as NaN (line 17); masks `ids11`
(line 19, `ids1 & (a > 0)`) and `ids12` (line 20, `ids1 & (a <= 0)`)
assign `Phi(-a) - Phi(-b)` (line 21) resp. `Phi(b) - Phi(a)` (line 22);
non-NaN entries are clamped to be >= 0 (line 23). -/
noncomputable def directClamped (G : GaussCDF) (a b : EF) : EF :=
  let res0 := EF.nan
  let i1 := ids1 a b
  let i11 := i1 && EF.flt (EF.fin 0) a
  let i12 := i1 && EF.fle a (EF.fin 0)
  let res1 := if i11 then EF.sub (cdf G (EF.neg a)) (cdf G (EF.neg b)) else res0
  let res2 := if i12 then EF.sub (cdf G b) (cdf G a) else res1
  if !res2.isNan then EF.max res2 (EF.fin 0) else res2

/-- Lines 17-24 of src/torch_TLR.py, elementwise: the direct-regime value
held in `res` just before the tail-regime masks are computed; line 24
replaces strictly positive entries by their logarithm. -/
noncomputable def directRes (G : GaussCDF) (a b : EF) : EF :=
  let res := directClamped G a b
  if EF.flt (EF.fin 0) res then EF.log res else res

/-- Lines 28-29 of src/torch_TLR.py (the `ids2` assignment), elementwise:
`log_normal_cdf(-b) + log1p(-exp(log_normal_cdf(-a) - log_normal_cdf(-b)))`. -/
noncomputable def tail2 (G : GaussCDF) (a b : EF) : EF :=
  EF.add (logncdf G (EF.neg b))
    (EF.log1p (EF.neg (EF.exp (EF.sub (logncdf G (EF.neg a)) (logncdf G (EF.neg b))))))

/-- Lines 32-33 of src/torch_TLR.py (the `ids3` assignment), elementwise:
`log_normal_cdf(-a) + log1p(-exp(log_normal_cdf(-b) - log_normal_cdf(-a)))`. -/
noncomputable def tail3 (G : GaussCDF) (a b : EF) : EF :=
  EF.add (logncdf G (EF.neg a))
    (EF.log1p (EF.neg (EF.exp (EF.sub (logncdf G (EF.neg b)) (logncdf G (EF.neg a))))))

/-- Lines 26-27 of src/torch_TLR.py, elementwise: the `ids2` mask
`(res <= 0) & ((b < 0) | (|a| >= |b|))`, evaluated on the value of `res`
after lines 17-24.  NaN comparisons are false, as in torch. -/
noncomputable def tailSelect (G : GaussCDF) (a b : EF) : Bool :=
  EF.fle (directRes G a b) (EF.fin 0)
    && (EF.flt b (EF.fin 0) || EF.fle (EF.abs b) (EF.abs a))

/-- `TruncatedNormal.get_logdelta` (src/torch_TLR.py lines 16-34),
elementwise.  Because `ids3 = ~ids2` (line 31), every element's final value
comes from one of the two tail assignments. -/
noncomputable def get_logdelta (G : GaussCDF) (a b : EF) : EF :=
  if tailSelect G a b then tail2 G a b else tail3 G a b

/-- Model of `self.snd.log_prob` (Normal(0,1).log_prob), elementwise:
the standard normal log density -z^2/2 - log(sqrt(2*pi)). -/
noncomputable def snd_log_prob : EF → EF
  | EF.fin z => EF.fin (-(z ^ 2) / 2 - Real.log (Real.sqrt (2 * Real.pi)))
  | EF.pinf => EF.ninf
  | EF.ninf => EF.ninf
  | EF.nan => EF.nan

/-- `TruncatedNormal.log_prob` (src/torch_TLR.py lines 36-40), elementwise:
standardize, take the normal log density minus `get_logdelta(a,b)` minus
`log(scale)`, then overwrite with -inf where the standardized value is
strictly outside [a, b] (line 39). -/
noncomputable def log_prob (G : GaussCDF) (val a b loc scale : EF) : EF :=
  let val_standard := EF.div (EF.sub val loc) scale
  let res := EF.sub (EF.sub (snd_log_prob val_standard) (get_logdelta G a b)) (EF.log scale)
  if EF.flt val_standard a || EF.flt b val_standard then EF.ninf else res

/-- Dot product of a design-matrix row with a coefficient vector
(one entry of the batched matrix-vector product `torch.bmm` at line 69). -/
def dot (xs ys : List ℝ) : ℝ := (List.zipWith (· * ·) xs ys).sum

/-- One batch element of the `TLR` module state: its response vector,
design matrix, coefficient parameter `beta` and scalar parameter `sigma`
(the raw value stored in `self.sigma`, exponentiated at use time). -/
structure TLRElem where
  y : List ℝ
  X : List (List ℝ)
  beta : List ℝ
  sigma : ℝ

/-- The `TLR` module state (src/torch_TLR.py lines 43-66): the batch of
elements plus the global resolved censoring thresholds. -/
structure TLRState where
  batch : List TLRElem
  l_thred : EF
  r_thred : EF

/-- torch.sum over a list of elementwise values (reduction starts at 0). -/
noncomputable def efSum (xs : List EF) : EF := xs.foldl EF.add (EF.fin 0)

/-- One batch element of `TLR.forward` (src/torch_TLR.py lines 68-73):
fitted values `Xb`, scale `exp(sigma)` broadcast over observations,
standardized truncation bounds, per-observation truncated-normal log
densities, summed over the element's observations (dim=-1).  No
normalization by observation count happens here. -/
noncomputable def forward_elem (G : GaussCDF) (l r : EF) (e : TLRElem) : EF :=
  let Xb := e.X.map (fun row => dot row e.beta)
  let exp_sigma := Real.exp e.sigma
  efSum (List.zipWith
    (fun yi xbi =>
      log_prob G (EF.fin yi)
        (EF.div (EF.sub l (EF.fin xbi)) (EF.fin exp_sigma))
        (EF.div (EF.sub r (EF.fin xbi)) (EF.fin exp_sigma))
        (EF.fin xbi) (EF.fin exp_sigma))
    e.y Xb)

/-- `TLR.forward` over the whole batch: one per-element log-likelihood
total per batch element (src/torch_TLR.py line 73). -/
noncomputable def forward (G : GaussCDF) (st : TLRState) : List EF :=
  st.batch.map (forward_elem G st.l_thred st.r_thred)

/-- The scalar loss of one driver iteration (src/torch_TLR.py line 84):
`-1 * solver().sum() / y.shape[0]`, where `y.shape[0]` is the number of
batch elements. -/
noncomputable def torch_TLR_loss (G : GaussCDF) (st : TLRState) : EF :=
  EF.div (EF.neg (efSum (forward G st))) (EF.fin (st.batch.length : ℝ))

/-- Modelled from the spec: the loss as claim C2 words it, the negated sum
of per-element log-likelihoods divided by the TOTAL observation count
(batch size times per-element observation count `nobs`).  Stated for
comparison with `torch_TLR_loss`. -/
noncomputable def spec_loss (G : GaussCDF) (st : TLRState) (nobs : ℕ) : EF :=
  EF.div (EF.neg (efSum (forward G st))) (EF.fin ((st.batch.length * nobs : ℕ) : ℝ))

/-- The censoring indicator `z` (src/torch_TLR.py lines 47-51) for one
observation: 0, overwritten by -1 where `y <= l_thred` (if a lower
threshold was given), then by 1 where `y >= r_thred` (if an upper
threshold was given). -/
noncomputable def indicator (l r : Option ℝ) (yi : ℝ) : ℤ :=
  let z0 : ℤ := 0
  let z1 : ℤ :=
    match l with
    | some lv => if yi ≤ lv then -1 else z0
    | none => z0
  match r with
  | some rv => if rv ≤ yi then 1 else z1
  | none => z1

/-- The interior (z = 0) observations of one batch element, paired with
their design rows (`yy[zz == 1], XX[zz == 1]` at line 57, where `zz` is
the `mid_z` mask `z == 0`). -/
noncomputable def interiorPairs (l r : Option ℝ) (yy : List ℝ) (XX : List (List ℝ)) :
    List (ℝ × List ℝ) :=
  (yy.zip XX).filter (fun p => indicator l r p.1 == 0)

/-- Initial coefficients for one batch element (src/torch_TLR.py line 58):
least squares on the interior observations, with `np.linalg.lstsq`
treated as an external collaborator passed in as `lstsq`. -/
noncomputable def init_beta_elem (lstsq : List (List ℝ) → List ℝ → List ℝ)
    (l r : Option ℝ) (yy : List ℝ) (XX : List (List ℝ)) : List ℝ :=
  let ps := interiorPairs l r yy XX
  lstsq (ps.map Prod.snd) (ps.map Prod.fst)

/-- Initial noise variance for one batch element (src/torch_TLR.py
line 59): mean squared residual of the least-squares fit on the interior
observations if there are any, else the fallback value 1. -/
noncomputable def init_sigma_elem (lstsq : List (List ℝ) → List ℝ → List ℝ)
    (l r : Option ℝ) (yy : List ℝ) (XX : List (List ℝ)) : ℝ :=
  let ps := interiorPairs l r yy XX
  let yI := ps.map Prod.fst
  let XI := ps.map Prod.snd
  let bb := lstsq XI yI
  let resid := List.zipWith (fun yi row => yi - dot row bb) yI XI
  if yI.length ≠ 0 then dot resid resid / yI.length else 1

/-- Lower-threshold resolution (src/torch_TLR.py line 53):
`-np.inf if l_thred is None else l_thred`. -/
def resolveL : Option ℝ → EF
  | none => EF.ninf
  | some v => EF.fin v

/-- Upper-threshold resolution (src/torch_TLR.py line 53):
`1e2 if r_thred is None else r_thred` — the default sentinel is 100. -/
def resolveR : Option ℝ → EF
  | none => EF.fin 100
  | some v => EF.fin v

/-- `TLR.__init__` (src/torch_TLR.py lines 44-66): per-element initial
parameters from restricted least squares (note `sigma` is seeded with the
raw variance `init_sigma_elem`, exactly as the code stores `ss`), plus the
resolved global thresholds. -/
noncomputable def TLR_init (lstsq : List (List ℝ) → List ℝ → List ℝ)
    (y : List (List ℝ)) (X : List (List (List ℝ))) (l r : Option ℝ) : TLRState :=
  { batch := List.zipWith
      (fun yy XX =>
        { y := yy
          X := XX
          beta := init_beta_elem lstsq l r yy XX
          sigma := init_sigma_elem lstsq l r yy XX })
      y X
    l_thred := resolveL l
    r_thred := resolveR r }

/-- The model constructed by the public entry point `torch_TLR`
(src/torch_TLR.py line 78): `TLR(y=y, X=X, device=device, l_thred=0)` —
the lower threshold is fixed to 0 and the upper threshold is left unset.
The remaining public parameters (device, lr, max_iter, tol, verbose) are
carried to show they do not influence the thresholds. -/
noncomputable def torch_TLR_solver (lstsq : List (List ℝ) → List ℝ → List ℝ)
    (y : List (List ℝ)) (X : List (List (List ℝ)))
    (device : String) (lr : ℝ) (max_iter : ℕ) (tol : ℝ) (verbose : ℤ) : TLRState :=
  TLR_init lstsq y X (some 0) none

/-- The `best_loss` tracking of the estimation driver (src/torch_TLR.py
lines 81, 88-89): `best_loss` starts at float('inf') and is replaced by
the current iteration's loss exactly when that loss compares strictly
below it (a NaN loss never updates it, as NaN comparisons are false).
`f t` is the loss observed at iteration `t`; the optimizer and scheduler
are external collaborators, so the loss sequence is abstract. -/
noncomputable def best_loss (f : ℕ → EF) : ℕ → EF
  | 0 => EF.pinf
  | t + 1 => if EF.flt (f t) (best_loss f t) then f t else best_loss f t

/-- A concrete member of the `GaussCDF` interface (the logistic sigmoid),
witnessing that the interface is satisfiable. -/
noncomputable def logisticG : GaussCDF where
  Phi x := 1 / (1 + Real.exp (-x))
  strictMono := by
    intro x y hxy
    have hx : 0 < 1 + Real.exp (-x) := by positivity
    have hy : 0 < 1 + Real.exp (-y) := by positivity
    have hexp : Real.exp (-y) < Real.exp (-x) := Real.exp_lt_exp.mpr (by linarith)
    exact one_div_lt_one_div_of_lt hy (by linarith)
  pos := by
    intro x
    positivity
  lt_one := by
    intro x
    have hx : 0 < 1 + Real.exp (-x) := by positivity
    rw [div_lt_one hx]
    have := Real.exp_pos (-x)
    linarith

namespace EF

theorem fle_fin_fin (a b : ℝ) : fle (fin a) (fin b) = decide (a ≤ b) := rfl

theorem flt_fin_fin (a b : ℝ) : flt (fin a) (fin b) = decide (a < b) := rfl

theorem fle_fin_fin_of_le {a b : ℝ} (h : a ≤ b) : fle (fin a) (fin b) = true := by
  simp [fle, h]

theorem fle_fin_fin_of_not_le {a b : ℝ} (h : ¬ a ≤ b) : fle (fin a) (fin b) = false := by
  simp [fle, h]

theorem flt_fin_fin_of_lt {a b : ℝ} (h : a < b) : flt (fin a) (fin b) = true := by
  simp [flt, h]

theorem flt_fin_fin_of_not_lt {a b : ℝ} (h : ¬ a < b) : flt (fin a) (fin b) = false := by
  simp [flt, h]

theorem sub_fin_fin (a b : ℝ) : sub (fin a) (fin b) = fin (a - b) := by
  simp [sub, add, neg, sub_eq_add_neg]

theorem log_fin_of_pos {r : ℝ} (h : 0 < r) : log (fin r) = fin (Real.log r) := by
  simp [log, h]

theorem log1p_fin_of_pos {r : ℝ} (h : 0 < 1 + r) : log1p (fin r) = fin (Real.log (1 + r)) := by
  simp [log1p, h]

theorem log1p_fin_of_neg {r : ℝ} (h : 1 + r < 0) : log1p (fin r) = nan := by
  have h1 : ¬ 0 < 1 + r := by linarith
  have h2 : ¬ 1 + r = 0 := by linarith
  simp [log1p, h1, h2]

theorem div_fin_fin {a b : ℝ} (h : b ≠ 0) : div (fin a) (fin b) = fin (a / b) := by
  simp [div, h]

theorem exp_ne_ninf (x : EF) : exp x ≠ ninf := by
  cases x <;> simp [exp]

theorem neg_exp_ne_pinf (x : EF) : neg (exp x) ≠ pinf := by
  cases x <;> simp [exp, neg]

theorem log1p_ne_pinf {x : EF} (h : x ≠ pinf) : log1p x ≠ pinf := by
  cases x with
  | fin r =>
      simp only [log1p]
      split
      · simp
      · split <;> simp
  | pinf => exact absurd rfl h
  | ninf => simp [log1p]
  | nan => simp [log1p]

theorem add_ne_pinf {x y : EF} (hx : x ≠ pinf) (hy : y ≠ pinf) : add x y ≠ pinf := by
  cases x <;> cases y <;> simp_all [add]

end EF

theorem logncdf_ne_pinf (G : GaussCDF) (x : EF) : logncdf G x ≠ EF.pinf := by
  cases x <;> simp [logncdf]

theorem tail2_ne_pinf (G : GaussCDF) (a b : EF) : tail2 G a b ≠ EF.pinf := by
  exact EF.add_ne_pinf (logncdf_ne_pinf G _) (EF.log1p_ne_pinf (EF.neg_exp_ne_pinf _))

theorem tail3_ne_pinf (G : GaussCDF) (a b : EF) : tail3 G a b ≠ EF.pinf := by
  exact EF.add_ne_pinf (logncdf_ne_pinf G _) (EF.log1p_ne_pinf (EF.neg_exp_ne_pinf _))

theorem get_logdelta_ne_pinf (G : GaussCDF) (a b : EF) : get_logdelta G a b ≠ EF.pinf := by
  unfold get_logdelta
  split
  · exact tail2_ne_pinf G a b
  · exact tail3_ne_pinf G a b

theorem get_logdelta_eq_tail2 {G : GaussCDF} {a b : EF} (h : tailSelect G a b = true) :
    get_logdelta G a b = tail2 G a b := by
  simp [get_logdelta, h]

theorem get_logdelta_eq_tail3 {G : GaussCDF} {a b : EF} (h : tailSelect G a b = false) :
    get_logdelta G a b = tail3 G a b := by
  simp [get_logdelta, h]

theorem tailSelect_false_of_right_false {G : GaussCDF} {a b : EF}
    (h1 : EF.flt b (EF.fin 0) = false) (h2 : EF.fle (EF.abs b) (EF.abs a) = false) :
    tailSelect G a b = false := by
  simp [tailSelect, h1, h2]

/-- Shared core of the two tail formulas on a degenerate interval: each
becomes x + log1p(-exp(x - x)) = x + log1p(-1) = x + (-inf) = -inf. -/
theorem tail_core_diag (x : ℝ) :
    EF.add (EF.fin x) (EF.log1p (EF.neg (EF.exp (EF.sub (EF.fin x) (EF.fin x))))) = EF.ninf := by
  rw [EF.sub_fin_fin]
  have h0 : x - x = 0 := sub_self x
  rw [h0]
  simp only [EF.exp, Real.exp_zero, EF.neg, EF.log1p]
  norm_num
  rfl

theorem tail2_diag (G : GaussCDF) (r : ℝ) : tail2 G (EF.fin r) (EF.fin r) = EF.ninf := by
  show EF.add (logncdf G (EF.neg (EF.fin r)))
      (EF.log1p (EF.neg (EF.exp (EF.sub (logncdf G (EF.neg (EF.fin r)))
        (logncdf G (EF.neg (EF.fin r))))))) = EF.ninf
  simp only [EF.neg, logncdf]
  exact tail_core_diag _

theorem tail3_diag (G : GaussCDF) (r : ℝ) : tail3 G (EF.fin r) (EF.fin r) = EF.ninf := by
  show EF.add (logncdf G (EF.neg (EF.fin r)))
      (EF.log1p (EF.neg (EF.exp (EF.sub (logncdf G (EF.neg (EF.fin r)))
        (logncdf G (EF.neg (EF.fin r))))))) = EF.ninf
  simp only [EF.neg, logncdf]
  exact tail_core_diag _

/-- On any finite interval with a < b, the regime-2 formula (lines 28-29)
takes log1p of a value below -1 and yields NaN: the mass it computes,
Phi(-b) - Phi(-a), is negative there. -/
theorem tail2_nan_of_lt (G : GaussCDF) (ar br : ℝ) (h : ar < br) :
    tail2 G (EF.fin ar) (EF.fin br) = EF.nan := by
  have hm : G.Phi (-br) < G.Phi (-ar) := G.strictMono (by linarith)
  have hlog : Real.log (G.Phi (-br)) < Real.log (G.Phi (-ar)) :=
    Real.log_lt_log (G.pos _) hm
  have hd : 0 < Real.log (G.Phi (-ar)) - Real.log (G.Phi (-br)) := by linarith
  have hexp : 1 < Real.exp (Real.log (G.Phi (-ar)) - Real.log (G.Phi (-br))) := by
    calc (1 : ℝ) = Real.exp 0 := Real.exp_zero.symm
    _ < _ := Real.exp_lt_exp.mpr hd
  show EF.add (logncdf G (EF.neg (EF.fin br)))
      (EF.log1p (EF.neg (EF.exp (EF.sub (logncdf G (EF.neg (EF.fin ar)))
        (logncdf G (EF.neg (EF.fin br))))))) = EF.nan
  simp only [EF.neg, logncdf]
  rw [EF.sub_fin_fin]
  simp only [EF.exp, EF.neg]
  rw [EF.log1p_fin_of_neg (by linarith)]
  simp [EF.add]

/-- The value of the regime-3 formula (lines 32-33) on a finite interval. -/
noncomputable def tail3val (G : GaussCDF) (ar br : ℝ) : ℝ :=
  Real.log (G.Phi (-ar)) +
    Real.log (1 + -(Real.exp (Real.log (G.Phi (-br)) - Real.log (G.Phi (-ar)))))

/-- On any finite interval with a < b, the regime-3 formula evaluates to
the finite value `tail3val`. -/
theorem tail3_eval_of_lt (G : GaussCDF) (ar br : ℝ) (h : ar < br) :
    tail3 G (EF.fin ar) (EF.fin br) = EF.fin (tail3val G ar br) := by
  have hm : G.Phi (-br) < G.Phi (-ar) := G.strictMono (by linarith)
  have hlog : Real.log (G.Phi (-br)) < Real.log (G.Phi (-ar)) :=
    Real.log_lt_log (G.pos _) hm
  have hexp : Real.exp (Real.log (G.Phi (-br)) - Real.log (G.Phi (-ar))) < 1 := by
    calc Real.exp (Real.log (G.Phi (-br)) - Real.log (G.Phi (-ar)))
        < Real.exp 0 := Real.exp_lt_exp.mpr (by linarith)
    _ = 1 := Real.exp_zero
  show EF.add (logncdf G (EF.neg (EF.fin ar)))
      (EF.log1p (EF.neg (EF.exp (EF.sub (logncdf G (EF.neg (EF.fin br)))
        (logncdf G (EF.neg (EF.fin ar))))))) = EF.fin (tail3val G ar br)
  simp only [EF.neg, logncdf]
  rw [EF.sub_fin_fin]
  simp only [EF.exp, EF.neg]
  rw [EF.log1p_fin_of_pos (by linarith)]
  simp [EF.add, tail3val]

/-- `tail3val` is negative: both of its addends are logs of values in (0,1). -/
theorem tail3val_neg (G : GaussCDF) (ar br : ℝ) (h : ar < br) : tail3val G ar br < 0 := by
  have hm : G.Phi (-br) < G.Phi (-ar) := G.strictMono (by linarith)
  have hlog : Real.log (G.Phi (-br)) < Real.log (G.Phi (-ar)) :=
    Real.log_lt_log (G.pos _) hm
  have hexp0 : 0 < Real.exp (Real.log (G.Phi (-br)) - Real.log (G.Phi (-ar))) :=
    Real.exp_pos _
  have hexp : Real.exp (Real.log (G.Phi (-br)) - Real.log (G.Phi (-ar))) < 1 := by
    calc Real.exp (Real.log (G.Phi (-br)) - Real.log (G.Phi (-ar)))
        < Real.exp 0 := Real.exp_lt_exp.mpr (by linarith)
    _ = 1 := Real.exp_zero
  have h1 : Real.log (G.Phi (-ar)) < 0 := Real.log_neg (G.pos _) (G.lt_one _)
  have h2 : Real.log (1 + -(Real.exp (Real.log (G.Phi (-br)) - Real.log (G.Phi (-ar))))) < 0 :=
    Real.log_neg (by linarith) (by linarith)
  unfold tail3val
  linarith

/-- Evaluation of the clamped direct regime on a finite interval eligible
through the `ids12` branch (a <= 0): the clamped probability is
Phi(b) - Phi(a), positive because a < b. -/
theorem directClamped_ids12 (G : GaussCDF) (ar br : ℝ)
    (h1 : ar ≤ 30) (h2 : -30 ≤ br) (h3 : ar ≤ 0) (hab : ar < br) :
    directClamped G (EF.fin ar) (EF.fin br) = EF.fin (G.Phi br - G.Phi ar) := by
  have hp : 0 < G.Phi br - G.Phi ar := sub_pos.mpr (G.strictMono hab)
  have h3' : ¬ 0 < ar := not_lt.mpr h3
  unfold directClamped ids1
  rw [EF.fle_fin_fin_of_le h1, EF.fle_fin_fin_of_le h2, EF.flt_fin_fin_of_not_lt h3',
    EF.fle_fin_fin_of_le h3]
  simp only [Bool.and_true, Bool.and_false, Bool.true_and, if_false, if_true,
    Bool.false_and, Bool.and_self]
  show (if !(EF.sub (cdf G (EF.fin br)) (cdf G (EF.fin ar))).isNan
    then EF.max (EF.sub (cdf G (EF.fin br)) (cdf G (EF.fin ar))) (EF.fin 0)
    else EF.sub (cdf G (EF.fin br)) (cdf G (EF.fin ar))) = EF.fin (G.Phi br - G.Phi ar)
  simp only [cdf]
  rw [EF.sub_fin_fin]
  simp only [EF.isNan, Bool.not_false, if_true, EF.max]
  rw [max_eq_left (le_of_lt hp)]

/-- Evaluation of the direct regime (lines 17-24) on a finite interval
eligible through the `ids12` branch with a < b: the value after line 24 is
log(Phi(b) - Phi(a)). -/
theorem directRes_ids12 (G : GaussCDF) (ar br : ℝ)
    (h1 : ar ≤ 30) (h2 : -30 ≤ br) (h3 : ar ≤ 0) (hab : ar < br) :
    directRes G (EF.fin ar) (EF.fin br) = EF.fin (Real.log (G.Phi br - G.Phi ar)) := by
  have hp : 0 < G.Phi br - G.Phi ar := sub_pos.mpr (G.strictMono hab)
  unfold directRes
  rw [directClamped_ids12 G ar br h1 h2 h3 hab]
  simp only [EF.flt_fin_fin_of_lt hp, if_true]
  exact EF.log_fin_of_pos hp

/-- After line 24, every direct-regime value computed through `ids12` with
a < b satisfies `res <= 0` (it is the log of a probability at most 1), so
the `ids2` test at line 26 is true for it whenever the second conjunct is. -/
theorem fle_directRes_ids12 (G : GaussCDF) (ar br : ℝ)
    (h1 : ar ≤ 30) (h2 : -30 ≤ br) (h3 : ar ≤ 0) (hab : ar < br) :
    EF.fle (directRes G (EF.fin ar) (EF.fin br)) (EF.fin 0) = true := by
  rw [directRes_ids12 G ar br h1 h2 h3 hab]
  apply EF.fle_fin_fin_of_le
  have hp : 0 ≤ G.Phi br - G.Phi ar := le_of_lt (sub_pos.mpr (G.strictMono hab))
  have hp1 : G.Phi br - G.Phi ar ≤ 1 := by
    have := G.lt_one br
    have := G.pos ar
    linarith
  exact Real.log_nonpos hp hp1

/-- For every CDF implementation, `get_logdelta` on the valid ordered pair
a = -1, b = 1/2 selects regime 2 (the direct value log(Phi(1/2) - Phi(-1))
is <= 0 and |b| <= |a|) and regime 2 yields NaN. -/
theorem logdelta_nan_at_neg_one_half (G : GaussCDF) :
    get_logdelta G (EF.fin (-1)) (EF.fin (1/2)) = EF.nan := by
  have hsel : tailSelect G (EF.fin (-1)) (EF.fin (1/2)) = true := by
    unfold tailSelect
    rw [fle_directRes_ids12 G (-1) (1/2) (by norm_num) (by norm_num) (by norm_num) (by norm_num)]
    have habs : EF.fle (EF.abs (EF.fin (1/2))) (EF.abs (EF.fin (-1))) = true := by
      simp only [EF.abs]
      apply EF.fle_fin_fin_of_le
      rw [abs_of_pos (by norm_num : (0:ℝ) < 1/2), abs_of_neg (by norm_num : (-1:ℝ) < 0)]
      norm_num
    rw [habs]
    simp
  rw [get_logdelta_eq_tail2 hsel]
  exact tail2_nan_of_lt G (-1) (1/2) (by norm_num)

/-- Evaluation of the clamped direct regime on a degenerate finite interval
a = b = r eligible for `ids1`: the probability mass is 0 (through either
the `ids11` or the `ids12` branch). -/
theorem directClamped_diag (G : GaussCDF) (r : ℝ) (h1 : r ≤ 30) (h2 : -30 ≤ r) :
    directClamped G (EF.fin r) (EF.fin r) = EF.fin 0 := by
  unfold directClamped ids1
  rw [EF.fle_fin_fin_of_le h1, EF.fle_fin_fin_of_le h2]
  by_cases h3 : 0 < r
  · rw [EF.flt_fin_fin_of_lt h3, EF.fle_fin_fin_of_not_le (not_le.mpr h3)]
    simp only [Bool.and_true, Bool.and_false, if_true, if_false, Bool.and_self]
    show (if !(EF.sub (cdf G (EF.neg (EF.fin r))) (cdf G (EF.neg (EF.fin r)))).isNan
      then EF.max (EF.sub (cdf G (EF.neg (EF.fin r))) (cdf G (EF.neg (EF.fin r)))) (EF.fin 0)
      else EF.sub (cdf G (EF.neg (EF.fin r))) (cdf G (EF.neg (EF.fin r)))) = EF.fin 0
    simp only [EF.neg, cdf]
    rw [EF.sub_fin_fin, sub_self]
    simp only [EF.isNan, Bool.not_false, if_true, EF.max]
    rw [max_self]
  · rw [EF.flt_fin_fin_of_not_lt h3, EF.fle_fin_fin_of_le (not_lt.mp h3)]
    simp only [Bool.and_true, Bool.and_false, if_true, if_false, Bool.and_self]
    show (if !(EF.sub (cdf G (EF.fin r)) (cdf G (EF.fin r))).isNan
      then EF.max (EF.sub (cdf G (EF.fin r)) (cdf G (EF.fin r))) (EF.fin 0)
      else EF.sub (cdf G (EF.fin r)) (cdf G (EF.fin r))) = EF.fin 0
    simp only [cdf]
    rw [EF.sub_fin_fin, sub_self]
    simp only [EF.isNan, Bool.not_false, if_true, EF.max]
    rw [max_self]

/-- On a degenerate interval outside `ids1` eligibility the direct regime
leaves the NaN initialization in place. -/
theorem directClamped_not_ids1 (G : GaussCDF) (a b : EF) (h : ids1 a b = false) :
    directClamped G a b = EF.nan := by
  unfold directClamped
  rw [h]
  simp [EF.isNan]

theorem directRes_not_ids1 (G : GaussCDF) (a b : EF) (h : ids1 a b = false) :
    directRes G a b = EF.nan := by
  unfold directRes
  rw [directClamped_not_ids1 G a b h]
  simp [EF.flt]

/-- `get_logdelta` on a degenerate finite interval with `|r| <= 30`
selects regime 2 (the clamped direct value is 0, which passes the
`res <= 0` test, and `|a| >= |b|` holds trivially). -/
theorem logdelta_diag_inside (G : GaussCDF) (r : ℝ) (h1 : r ≤ 30) (h2 : -30 ≤ r) :
    get_logdelta G (EF.fin r) (EF.fin r) = EF.ninf := by
  have hsel : tailSelect G (EF.fin r) (EF.fin r) = true := by
    unfold tailSelect
    have hd : directRes G (EF.fin r) (EF.fin r) = EF.fin 0 := by
      unfold directRes
      rw [directClamped_diag G r h1 h2]
      simp [EF.flt]
    rw [hd, EF.fle_fin_fin_of_le le_rfl]
    simp [EF.abs, EF.fle]
  rw [get_logdelta_eq_tail2 hsel]
  exact tail2_diag G r

/-- `get_logdelta` on a degenerate finite interval with `|r| > 30` leaves
the direct NaN in place, fails the `res <= 0` test (NaN comparisons are
false) and lands in regime 3. -/
theorem logdelta_diag_outside (G : GaussCDF) (r : ℝ) (h : ¬ (r ≤ 30 ∧ -30 ≤ r)) :
    get_logdelta G (EF.fin r) (EF.fin r) = EF.ninf := by
  have hids : ids1 (EF.fin r) (EF.fin r) = false := by
    unfold ids1
    rcases not_and_or.mp h with h' | h'
    · rw [EF.fle_fin_fin_of_not_le h']
      simp
    · rw [EF.fle_fin_fin_of_not_le h']
      simp
  have hsel : tailSelect G (EF.fin r) (EF.fin r) = false := by
    unfold tailSelect
    rw [directRes_not_ids1 G _ _ hids]
    simp [EF.fle]
  rw [get_logdelta_eq_tail3 hsel]
  exact tail3_diag G r

/-- C6: for every CDF implementation and every finite `a`, `get_logdelta`
on the degenerate zero-width interval `[a, a]` returns -inf, the log of
probability zero (spec §4.1 edge case / testable property 2). -/
theorem get_logdelta_degenerate_interval (G : GaussCDF) (r : ℝ) :
    get_logdelta G (EF.fin r) (EF.fin r) = EF.ninf := by
  by_cases h : r ≤ 30 ∧ -30 ≤ r
  · exact logdelta_diag_inside G r h.1 h.2
  · exact logdelta_diag_outside G r h

/-- C1: the interval log-probability primitive can return NaN on a valid
ordered pair of finite bounds: at a = -1, b = 1/2 the direct regime
computes the correct probability, but the `res <= 0` test at line 26 is
true for every log-probability, so the element is recomputed by regime 2
(because |b| <= |a|), whose formula is the log of the negative mass
Phi(-b) - Phi(-a); the result is NaN for every conforming CDF.  This
contradicts the hard requirement of spec §7. -/
theorem get_logdelta_nan_on_valid_input (G : GaussCDF) :
    get_logdelta G (EF.fin (-1)) (EF.fin (1/2)) = EF.nan :=
  logdelta_nan_at_neg_one_half G

/-- C3: on the full line a = -inf, b = +inf the direct regime computes
probability 1 with log 0, the `res <= 0` test is true and `|a| >= |b|`
holds (both are +inf), so the element is recomputed by regime 2:
log_normal_cdf(-inf) + log1p(-exp(0 - (-inf))) = -inf + log1p(-inf)
= -inf + NaN = NaN, not the value 0 required by spec §8 property 3. -/
theorem get_logdelta_full_line_nan (G : GaussCDF) :
    get_logdelta G EF.ninf EF.pinf = EF.nan := by
  have hd : directRes G EF.ninf EF.pinf = EF.fin 0 := by
    unfold directRes directClamped ids1
    simp only [EF.fle, EF.flt, Bool.and_true, Bool.and_false, Bool.true_and, if_true, if_false,
      cdf, decide_True, decide_False]
    rw [EF.sub_fin_fin]
    norm_num
    simp [EF.isNan, EF.max, EF.flt, EF.log, Real.log_one]
  have hsel : tailSelect G EF.ninf EF.pinf = true := by
    unfold tailSelect
    rw [hd, EF.fle_fin_fin_of_le le_rfl]
    simp [EF.flt, EF.abs, EF.fle]
  rw [get_logdelta_eq_tail2 hsel]
  show EF.add (logncdf G (EF.neg EF.pinf))
      (EF.log1p (EF.neg (EF.exp (EF.sub (logncdf G (EF.neg EF.ninf))
        (logncdf G (EF.neg EF.pinf)))))) = EF.nan
  simp only [EF.neg, logncdf, EF.sub, EF.add, EF.exp, EF.log1p]

/-- C4: regime selection does not work as specified: at a = -2, b = 1 the
clamped direct probability Phi(1) - Phi(-2) is strictly positive, yet the
final value of `get_logdelta` is not the direct value — the element is
recomputed by the upper-tail regime (the `res <= 0` test at line 26 is
true for every non-NaN direct value, since those are logs of
probabilities), and regime 2 turns it into NaN. -/
theorem direct_positive_still_recomputed (G : GaussCDF) :
    EF.flt (EF.fin 0) (directClamped G (EF.fin (-2)) (EF.fin 1)) = true ∧
      get_logdelta G (EF.fin (-2)) (EF.fin 1) ≠ directRes G (EF.fin (-2)) (EF.fin 1) := by
  have hp : 0 < G.Phi 1 - G.Phi (-2) := sub_pos.mpr (G.strictMono (by norm_num))
  constructor
  · rw [directClamped_ids12 G (-2) 1 (by norm_num) (by norm_num) (by norm_num) (by norm_num)]
    exact EF.flt_fin_fin_of_lt hp
  · have hsel : tailSelect G (EF.fin (-2)) (EF.fin 1) = true := by
      unfold tailSelect
      rw [fle_directRes_ids12 G (-2) 1 (by norm_num) (by norm_num) (by norm_num) (by norm_num)]
      have habs : EF.fle (EF.abs (EF.fin 1)) (EF.abs (EF.fin (-2))) = true := by
        simp only [EF.abs]
        apply EF.fle_fin_fin_of_le
        rw [abs_of_pos (by norm_num : (0:ℝ) < 1), abs_of_neg (by norm_num : (-2:ℝ) < 0)]
        norm_num
      rw [habs]
      simp
    rw [get_logdelta_eq_tail2 hsel, tail2_nan_of_lt G (-2) 1 (by norm_num),
      directRes_ids12 G (-2) 1 (by norm_num) (by norm_num) (by norm_num) (by norm_num)]
    simp

/-- C5: the reflection symmetry `get_logdelta(a,b) = get_logdelta(-b,-a)`
of spec §8 property 5 fails: at a = -1, b = 1/2 the left side is NaN
(see C1) while the reflected pair (-1/2, 1) has |a| < |b| and so is
evaluated by regime 3, producing a finite value. -/
theorem get_logdelta_reflection_fails (G : GaussCDF) :
    get_logdelta G (EF.fin (-1)) (EF.fin (1/2)) ≠
      get_logdelta G (EF.neg (EF.fin (1/2))) (EF.neg (EF.fin (-1))) := by
  have hl : get_logdelta G (EF.fin (-1)) (EF.fin (1/2)) = EF.nan :=
    logdelta_nan_at_neg_one_half G
  have hneg1 : EF.neg (EF.fin (1/2)) = EF.fin (-(1/2) : ℝ) := rfl
  have hneg2 : EF.neg (EF.fin (-1)) = EF.fin (-(-1) : ℝ) := rfl
  have hsel : tailSelect G (EF.fin (-(1/2) : ℝ)) (EF.fin (-(-1) : ℝ)) = false := by
    apply tailSelect_false_of_right_false
    · apply EF.flt_fin_fin_of_not_lt
      norm_num
    · simp only [EF.abs]
      apply EF.fle_fin_fin_of_not_le
      rw [abs_of_pos (by norm_num : (0:ℝ) < -(-1)), abs_of_neg (by norm_num : (-(1/2):ℝ) < 0)]
      norm_num
  rw [hl, hneg1, hneg2, get_logdelta_eq_tail3 hsel,
    tail3_eval_of_lt G (-(1/2)) (-(-1)) (by norm_num)]
  simp

theorem foldl_add_map_fin (vs : List ℝ) (x : ℝ) :
    (vs.map EF.fin).foldl EF.add (EF.fin x) = EF.fin (x + vs.sum) := by
  induction vs generalizing x with
  | nil => simp
  | cons a tl ih =>
      simp only [List.map_cons, List.foldl_cons, EF.add]
      rw [ih (x + a)]
      congr 1
      simp [List.sum_cons]
      ring

/-- torch.sum over a batch of finite values is the finite real sum. -/
theorem efSum_map_fin (vs : List ℝ) : efSum (vs.map EF.fin) = EF.fin vs.sum := by
  unfold efSum
  rw [foldl_add_map_fin]
  congr 1
  ring

theorem log_sqrt_two_pi_lt_one : Real.log (Real.sqrt (2 * Real.pi)) < 1 := by
  have hpi : Real.pi < 3.15 := Real.pi_lt_315
  have he : (2.7182818283 : ℝ) < Real.exp 1 := Real.exp_one_gt_d9
  have h2pi : (2 : ℝ) * Real.pi < Real.exp 1 ^ 2 := by nlinarith
  have hsq : Real.sqrt (2 * Real.pi) < Real.exp 1 := by
    have h1 : Real.sqrt (2 * Real.pi) < Real.sqrt (Real.exp 1 ^ 2) :=
      Real.sqrt_lt_sqrt (by positivity) h2pi
    rwa [Real.sqrt_sq (le_of_lt (Real.exp_pos 1))] at h1
  have hpos : 0 < Real.sqrt (2 * Real.pi) := Real.sqrt_pos.mpr (by positivity)
  rw [Real.log_lt_iff_lt_exp hpos]
  exact hsq

/-- A concrete one-element, two-observation model state: y = [40, 40],
X = [[1], [1]], beta = [40], sigma = -10, under the driver's thresholds
l = 0, r = 100.  The parameters beta and sigma are mutated freely by the
external optimizer during the run, so any parameter value is a legitimate
iteration state. -/
def demoState : TLRState :=
  { batch := [{ y := [40, 40], X := [[1], [1]], beta := [40], sigma := -10 }]
    l_thred := EF.fin 0
    r_thred := EF.fin 100 }

theorem dot_one_forty : dot [(1 : ℝ)] [(40 : ℝ)] = 40 := by
  simp [dot]

/-- The per-observation log density in `demoState`: the observation sits at
the interior point z = 0 of a wide interval handled by regime 3, and the
term is 10 - log(sqrt(2*pi)) - log(mass), strictly greater than 9. -/
theorem demo_obs_eval :
    ∃ t : ℝ, 9 < t ∧
      log_prob logisticG (EF.fin 40)
        (EF.div (EF.sub (EF.fin 0) (EF.fin 40)) (EF.fin (Real.exp (-10))))
        (EF.div (EF.sub (EF.fin 100) (EF.fin 40)) (EF.fin (Real.exp (-10))))
        (EF.fin 40) (EF.fin (Real.exp (-10))) = EF.fin t := by
  have hexp : (0 : ℝ) < Real.exp (-10) := Real.exp_pos _
  have hexpne : Real.exp (-10) ≠ 0 := ne_of_gt hexp
  have ha : EF.div (EF.sub (EF.fin 0) (EF.fin 40)) (EF.fin (Real.exp (-10)))
      = EF.fin ((0 - 40) / Real.exp (-10)) := by
    rw [EF.sub_fin_fin, EF.div_fin_fin hexpne]
  have hb : EF.div (EF.sub (EF.fin 100) (EF.fin 40)) (EF.fin (Real.exp (-10)))
      = EF.fin ((100 - 40) / Real.exp (-10)) := by
    rw [EF.sub_fin_fin, EF.div_fin_fin hexpne]
  have hz : EF.div (EF.sub (EF.fin 40) (EF.fin 40)) (EF.fin (Real.exp (-10)))
      = EF.fin 0 := by
    rw [EF.sub_fin_fin, sub_self, EF.div_fin_fin hexpne, zero_div]
  have har_neg : (0 - 40) / Real.exp (-10) < 0 :=
    div_neg_of_neg_of_pos (by norm_num) hexp
  have hbr_pos : 0 < (100 - 40) / Real.exp (-10) :=
    div_pos (by norm_num) hexp
  have hab : (0 - 40) / Real.exp (-10) < (100 - 40) / Real.exp (-10) :=
    lt_trans har_neg hbr_pos
  have hsel : tailSelect logisticG (EF.fin ((0 - 40) / Real.exp (-10)))
      (EF.fin ((100 - 40) / Real.exp (-10))) = false := by
    apply tailSelect_false_of_right_false
    · exact EF.flt_fin_fin_of_not_lt (not_lt.mpr (le_of_lt hbr_pos))
    · simp only [EF.abs]
      apply EF.fle_fin_fin_of_not_le
      rw [abs_of_pos hbr_pos, abs_of_neg har_neg]
      rw [show -((0 - 40) / Real.exp (-10)) = (40 : ℝ) / Real.exp (-10) by ring]
      rw [div_le_div_right hexp]
      norm_num
  have hgd : get_logdelta logisticG (EF.fin ((0 - 40) / Real.exp (-10)))
      (EF.fin ((100 - 40) / Real.exp (-10)))
      = EF.fin (tail3val logisticG ((0 - 40) / Real.exp (-10)) ((100 - 40) / Real.exp (-10))) := by
    rw [get_logdelta_eq_tail3 hsel]
    exact tail3_eval_of_lt logisticG _ _ hab
  have hw : tail3val logisticG ((0 - 40) / Real.exp (-10)) ((100 - 40) / Real.exp (-10)) < 0 :=
    tail3val_neg logisticG _ _ hab
  refine ⟨-(0 ^ 2 : ℝ) / 2 - Real.log (Real.sqrt (2 * Real.pi))
      - tail3val logisticG ((0 - 40) / Real.exp (-10)) ((100 - 40) / Real.exp (-10))
      - Real.log (Real.exp (-10)), ?_, ?_⟩
  · have hc : Real.log (Real.sqrt (2 * Real.pi)) < 1 := log_sqrt_two_pi_lt_one
    rw [Real.log_exp]
    have h0 : -(0 ^ 2 : ℝ) / 2 = 0 := by norm_num
    rw [h0]
    linarith
  · unfold log_prob
    rw [hz, ha, hb]
    have hflt1 : EF.flt (EF.fin 0) (EF.fin ((0 - 40) / Real.exp (-10))) = false :=
      EF.flt_fin_fin_of_not_lt (not_lt.mpr (le_of_lt har_neg))
    have hflt2 : EF.flt (EF.fin ((100 - 40) / Real.exp (-10))) (EF.fin 0) = false :=
      EF.flt_fin_fin_of_not_lt (not_lt.mpr (le_of_lt hbr_pos))
    simp only [hflt1, hflt2, Bool.or_self, Bool.false_eq_true, if_false, hgd, snd_log_prob,
      EF.log_fin_of_pos hexp, EF.sub_fin_fin]

/-- `TLR.forward` on `demoState` produces one strictly positive finite
per-element total (both observations contribute the same term > 9). -/
theorem demo_forward_eval : ∃ s : ℝ, 0 < s ∧ forward logisticG demoState = [EF.fin s] := by
  obtain ⟨t, ht, hu⟩ := demo_obs_eval
  refine ⟨0 + t + t, by linarith, ?_⟩
  unfold forward demoState forward_elem
  simp only [List.map_cons, List.map_nil, dot_one_forty, List.zipWith_cons_cons,
    List.zipWith_nil_right, List.zipWith_nil_left]
  rw [hu]
  simp [efSum, EF.add]

/-- C2 (counterexample): on a one-element batch with two observations the
driver's scalar loss (line 84 divides by `y.shape[0]`, the number of batch
elements) differs from the spec's claimed total-observation-count
normalization: the per-element total is a strictly positive finite value,
so dividing it by 1 and dividing it by 1 * 2 give different results. -/
theorem torch_TLR_loss_ne_spec_loss :
    torch_TLR_loss logisticG demoState ≠ spec_loss logisticG demoState 2 := by
  obtain ⟨s, hs, hf⟩ := demo_forward_eval
  unfold torch_TLR_loss spec_loss
  rw [hf]
  have hsum : efSum [EF.fin s] = EF.fin (0 + s) := by
    simp [efSum, EF.add]
  rw [hsum]
  simp only [EF.neg]
  have hlen : demoState.batch.length = 1 := by
    simp [demoState]
  rw [hlen]
  have hc1 : ((1 : ℕ) : ℝ) = 1 := by norm_num
  have hc2 : (((1 : ℕ) * (2 : ℕ) : ℕ) : ℝ) = 2 := by norm_num
  rw [hc1, hc2, EF.div_fin_fin (by norm_num : (1 : ℝ) ≠ 0),
    EF.div_fin_fin (by norm_num : (2 : ℝ) ≠ 0)]
  simp only [ne_eq, EF.fin.injEq]
  intro heq
  rw [div_one] at heq
  have : s = 0 := by linarith
  linarith

/-- C2 (amended): at every iteration the driver's scalar loss is the
negated sum of the per-element log-likelihood totals divided by the number
of batch elements (`y.shape[0]`), not by the total observation count; the
per-element totals themselves are unnormalized sums (see `forward_elem`). -/
theorem torch_TLR_loss_normalizes_by_batch_count (G : GaussCDF) (st : TLRState)
    (vs : List ℝ) (hv : forward G st = vs.map EF.fin) (hne : st.batch ≠ []) :
    torch_TLR_loss G st = EF.fin (-(vs.sum) / (st.batch.length : ℝ)) := by
  unfold torch_TLR_loss
  rw [hv, efSum_map_fin]
  have hlen : (st.batch.length : ℝ) ≠ 0 := by
    have := List.length_pos.mpr hne
    exact_mod_cast Nat.pos_iff_ne_zero.mp this
  show EF.div (EF.neg (EF.fin vs.sum)) (EF.fin (st.batch.length : ℝ)) = _
  simp only [EF.neg]
  exact EF.div_fin_fin hlen

/-- A one-element state with no observations: its forward total is the
empty sum 0, exercising `torch_TLR_loss_normalizes_by_batch_count` on a
concrete input. -/
def emptyObsState : TLRState :=
  { batch := [{ y := [], X := [], beta := [], sigma := 0 }]
    l_thred := EF.ninf
    r_thred := EF.fin 100 }

theorem torch_TLR_loss_normalizes_by_batch_count_w :
    forward logisticG emptyObsState = [(0 : ℝ)].map EF.fin ∧
      emptyObsState.batch ≠ [] ∧
      torch_TLR_loss logisticG emptyObsState
        = EF.fin (-(List.sum [(0 : ℝ)]) / (emptyObsState.batch.length : ℝ)) := by
  have h1 : forward logisticG emptyObsState = [(0 : ℝ)].map EF.fin := by
    simp [forward, emptyObsState, forward_elem, efSum]
  have h2 : emptyObsState.batch ≠ [] := by
    simp [emptyObsState]
  exact ⟨h1, h2, torch_TLR_loss_normalizes_by_batch_count logisticG emptyObsState [(0 : ℝ)] h1 h2⟩

/-- C7: for finite value, location and positive scale and any ordered pair
of bounds, `log_prob` is -inf exactly where the standardized value falls
strictly outside [a, b] (boundaries are inside, line 39 uses strict
comparisons), and inside it returns the standard normal log density minus
`get_logdelta(a, b)` minus log(scale). -/
theorem log_prob_support_characterization (G : GaussCDF) (v lc s : ℝ) (a b : EF)
    (hs : 0 < s) (hab : EF.fle a b = true) :
    (log_prob G (EF.fin v) a b (EF.fin lc) (EF.fin s) = EF.ninf ↔
      (EF.flt (EF.div (EF.sub (EF.fin v) (EF.fin lc)) (EF.fin s)) a ||
        EF.flt b (EF.div (EF.sub (EF.fin v) (EF.fin lc)) (EF.fin s))) = true) ∧
    ((EF.flt (EF.div (EF.sub (EF.fin v) (EF.fin lc)) (EF.fin s)) a ||
        EF.flt b (EF.div (EF.sub (EF.fin v) (EF.fin lc)) (EF.fin s))) = false →
      log_prob G (EF.fin v) a b (EF.fin lc) (EF.fin s) =
        EF.sub (EF.sub (snd_log_prob (EF.div (EF.sub (EF.fin v) (EF.fin lc)) (EF.fin s)))
          (get_logdelta G a b)) (EF.log (EF.fin s))) := by
  have hsne : s ≠ 0 := ne_of_gt hs
  have hzfin : EF.div (EF.sub (EF.fin v) (EF.fin lc)) (EF.fin s) = EF.fin ((v - lc) / s) := by
    rw [EF.sub_fin_fin, EF.div_fin_fin hsne]
  have hlp : log_prob G (EF.fin v) a b (EF.fin lc) (EF.fin s)
      = if (EF.flt (EF.div (EF.sub (EF.fin v) (EF.fin lc)) (EF.fin s)) a ||
            EF.flt b (EF.div (EF.sub (EF.fin v) (EF.fin lc)) (EF.fin s))) = true
        then EF.ninf
        else EF.sub (EF.sub (snd_log_prob (EF.div (EF.sub (EF.fin v) (EF.fin lc)) (EF.fin s)))
          (get_logdelta G a b)) (EF.log (EF.fin s)) := rfl
  rcases Bool.eq_false_or_eq_true
      (EF.flt (EF.div (EF.sub (EF.fin v) (EF.fin lc)) (EF.fin s)) a ||
        EF.flt b (EF.div (EF.sub (EF.fin v) (EF.fin lc)) (EF.fin s))) with hc | hc
  · constructor
    · rw [hlp, if_pos hc, hc]
      simp
    · intro h
      rw [h] at hc
      exact absurd hc (by simp)
  · have hne : log_prob G (EF.fin v) a b (EF.fin lc) (EF.fin s) ≠ EF.ninf := by
      rw [hlp, if_neg (by simp [hc]), hzfin]
      simp only [snd_log_prob]
      rw [EF.log_fin_of_pos hs]
      cases hgd : get_logdelta G a b with
      | fin w =>
          rw [EF.sub_fin_fin, EF.sub_fin_fin]
          simp
      | pinf => exact absurd hgd (get_logdelta_ne_pinf G a b)
      | ninf => simp [EF.sub, EF.add, EF.neg]
      | nan => simp [EF.sub, EF.add, EF.neg]
    constructor
    · rw [hc]
      simp [hne]
    · intro _
      rw [hlp, if_neg (by simp [hc])]

theorem log_prob_support_characterization_w :
    (0 : ℝ) < 1 ∧ EF.fle EF.ninf (EF.fin 100) = true ∧
      ((log_prob logisticG (EF.fin 0) EF.ninf (EF.fin 100) (EF.fin 0) (EF.fin 1) = EF.ninf ↔
        (EF.flt (EF.div (EF.sub (EF.fin 0) (EF.fin 0)) (EF.fin 1)) EF.ninf ||
          EF.flt (EF.fin 100) (EF.div (EF.sub (EF.fin 0) (EF.fin 0)) (EF.fin 1))) = true) ∧
      ((EF.flt (EF.div (EF.sub (EF.fin 0) (EF.fin 0)) (EF.fin 1)) EF.ninf ||
          EF.flt (EF.fin 100) (EF.div (EF.sub (EF.fin 0) (EF.fin 0)) (EF.fin 1))) = false →
        log_prob logisticG (EF.fin 0) EF.ninf (EF.fin 100) (EF.fin 0) (EF.fin 1) =
          EF.sub (EF.sub (snd_log_prob (EF.div (EF.sub (EF.fin 0) (EF.fin 0)) (EF.fin 1)))
            (get_logdelta logisticG EF.ninf (EF.fin 100))) (EF.log (EF.fin 1)))) :=
  ⟨one_pos, rfl,
    log_prob_support_characterization logisticG 0 0 1 EF.ninf (EF.fin 100) one_pos rfl⟩

/-- C8: a batch element with no interior (z = 0) observations gets the
fallback initial variance 1 (src/torch_TLR.py line 59).  The model of the
construction is a total function: no error path exists for this input. -/
theorem init_sigma_fallback_one (lstsq : List (List ℝ) → List ℝ → List ℝ)
    (l r : Option ℝ) (yy : List ℝ) (XX : List (List ℝ))
    (h : ∀ yi ∈ yy, indicator l r yi ≠ 0) :
    init_sigma_elem lstsq l r yy XX = 1 := by
  have hfil : interiorPairs l r yy XX = [] := by
    unfold interiorPairs
    apply List.filter_eq_nil.mpr
    intro p hp
    have hmem : p.1 ∈ yy := (List.of_mem_zip hp).1
    simp only [beq_iff_eq]
    exact h p.1 hmem
  unfold init_sigma_elem
  rw [hfil]
  simp

theorem init_sigma_fallback_one_w :
    (∀ yi ∈ [(-1 : ℝ)], indicator (some 0) none yi ≠ 0) ∧
      init_sigma_elem (fun _ _ => []) (some 0) none [(-1 : ℝ)] [[(1 : ℝ)]] = 1 := by
  have h : ∀ yi ∈ [(-1 : ℝ)], indicator (some 0) none yi ≠ 0 := by
    intro yi hyi
    simp only [List.mem_singleton] at hyi
    subst hyi
    norm_num [indicator]
  exact ⟨h, init_sigma_fallback_one (fun _ _ => []) (some 0) none [(-1 : ℝ)] [[(1 : ℝ)]] h⟩

namespace EF

theorem fle_refl_of_ne_nan {x : EF} (h : x ≠ nan) : fle x x = true := by
  cases x <;> simp_all [fle]

theorem fle_trans {x y z : EF} (h1 : fle x y = true) (h2 : fle y z = true) :
    fle x z = true := by
  cases x <;> cases y <;> cases z <;> simp_all [fle] <;> try linarith

theorem flt_imp_fle {x y : EF} (h : flt x y = true) : fle x y = true := by
  cases x <;> cases y <;> simp_all [flt, fle] <;> try linarith

end EF

theorem best_loss_ne_nan (f : ℕ → EF) (t : ℕ) : best_loss f t ≠ EF.nan := by
  induction t with
  | zero => simp [best_loss]
  | succ n ih =>
      rw [best_loss]
      split
      · next h =>
          intro hnan
          rw [hnan] at h
          simp [EF.flt] at h
      · exact ih

theorem best_loss_step (f : ℕ → EF) (t : ℕ) :
    EF.fle (best_loss f (t + 1)) (best_loss f t) = true := by
  rw [best_loss]
  split
  · next h => exact EF.flt_imp_fle h
  · exact EF.fle_refl_of_ne_nan (best_loss_ne_nan f t)

/-- C9: across one run, the recorded `best_loss` is monotonically
non-increasing in the number of iterations examined: it is replaced only
by a strictly smaller loss (line 88) and never increased.  The loss at
each iteration is abstract because the optimizer is an external
collaborator. -/
theorem best_loss_monotone (f : ℕ → EF) (t1 t2 : ℕ) (h : t1 ≤ t2) :
    EF.fle (best_loss f t2) (best_loss f t1) = true := by
  induction t2, h using Nat.le_induction with
  | base => exact EF.fle_refl_of_ne_nan (best_loss_ne_nan f t1)
  | succ n hn ih => exact EF.fle_trans (best_loss_step f n) ih

theorem best_loss_monotone_w :
    1 ≤ 3 ∧
      EF.fle (best_loss (fun _ => EF.pinf) 3) (best_loss (fun _ => EF.pinf) 1) = true :=
  ⟨by norm_num, best_loss_monotone (fun _ => EF.pinf) 1 3 (by norm_num)⟩

/-- C10: the public entry point always constructs the model with the lower
censoring threshold fixed to 0 and the upper threshold left unset, so the
upper threshold takes the default sentinel 100 (line 53); none of the
public parameters can change the thresholds. -/
theorem torch_TLR_thresholds_fixed (lstsq : List (List ℝ) → List ℝ → List ℝ)
    (y : List (List ℝ)) (X : List (List (List ℝ))) (device : String)
    (lr : ℝ) (max_iter : ℕ) (tol : ℝ) (verbose : ℤ) :
    (torch_TLR_solver lstsq y X device lr max_iter tol verbose).l_thred = EF.fin 0 ∧
      (torch_TLR_solver lstsq y X device lr max_iter tol verbose).r_thred = EF.fin 100 :=
  ⟨rfl, rfl⟩
